import Mathlib

/-!
Verification of the opiqo-multi LV2 plugin host core.

This file gives a shallow embedding, in Lean, of the parts of the host that
the specification talks about:

* the lock-free byte ring buffer (`lv2_ringbuffer.h`);
* the URID registry (`LV2Plugin.hpp`, `map_uri` / `unmap_uri`);
* the control classes (`ControlPortFloat`, `AtomPortControl`) and the
  engine-level `setValue` JNI entry point (`jni_bridge.cpp`);
* the port table, the atom buffer sizing (`check_resize_port_requirements`,
  `init_ports`), the port connection step of `init_instance`;
* the DSP-to-UI atom export loop of `process()` and the worker schedule
  callback `host_schedule_work`;
* the slot management of the engine (`addPlugin` / `deletePlugin` in
  `jni_bridge.cpp`).

Machine integers are modelled as `Nat` with explicit reduction modulo
`2 ^ 64` where `size_t` wrap-around matters.  Floating point control values
are only ever compared (via `std::clamp`), never combined arithmetically, so
they are modelled by the linearly ordered field `ℚ`.
-/

/-- 2 ^ 64, the modulus of `size_t` arithmetic on the target platform. -/
def WORD : Nat := 2 ^ 64

theorem WORD_eq : WORD = 18446744073709551616 := by norm_num [WORD]

/-- State of `lv2_ringbuffer_t`: the backing byte array (a function from the
physical index, taken modulo the capacity, to the byte stored there), the
capacity `size`, the index mask `size_mask = size - 1`, and the free-running
write and read positions, kept reduced modulo `2 ^ 64` as in `size_t`. -/
structure Ringbuffer where
  buf : Nat → Nat
  size : Nat
  size_mask : Nat
  write_ptr : Nat
  read_ptr : Nat

/-- `is_power_of_two` from `lv2_ringbuffer.h`: `x && !(x & (x - 1))`. -/
def is_power_of_two (x : Nat) : Bool :=
  x != 0 && (x &&& (x - 1)) == 0

/-- `lv2_ringbuffer_create`: fails unless the requested capacity is a power of
two; otherwise returns a buffer with both positions at zero. -/
def lv2_ringbuffer_create (sz : Nat) : Option Ringbuffer :=
  if is_power_of_two sz then
    some { buf := fun _ => 0, size := sz, size_mask := sz - 1,
           write_ptr := 0, read_ptr := 0 }
  else
    none

/-- `lv2_ringbuffer_reset`: both positions return to zero. -/
def lv2_ringbuffer_reset (rb : Ringbuffer) : Ringbuffer :=
  { rb with write_ptr := 0, read_ptr := 0 }

/-- `lv2_ringbuffer_read_space`: the `size_t` difference `write_ptr - read_ptr`,
which wraps modulo `2 ^ 64`. -/
def lv2_ringbuffer_read_space (rb : Ringbuffer) : Nat :=
  (rb.write_ptr + WORD - rb.read_ptr) % WORD

/-- `lv2_ringbuffer_write_space`: the `size_t` difference
`size - read_space`. -/
def lv2_ringbuffer_write_space (rb : Ringbuffer) : Nat :=
  (rb.size + WORD - lv2_ringbuffer_read_space rb) % WORD

/-- `lv2_ringbuffer_peek`: clamps the requested count to `read_space` and
returns the bytes at `(read_ptr + i) & size_mask` for `i < cnt`, together with
the (possibly clamped) count.  The state is unchanged. -/
def lv2_ringbuffer_peek (rb : Ringbuffer) (cnt : Nat) : List Nat × Nat :=
  let avail := lv2_ringbuffer_read_space rb
  let c := min cnt avail
  ((List.range c).map (fun i => rb.buf (((rb.read_ptr + i) % WORD) &&& rb.size_mask)), c)

/-- `lv2_ringbuffer_read`: a peek followed by `read_ptr.fetch_add cnt`
(wrapping modulo `2 ^ 64`). -/
def lv2_ringbuffer_read (rb : Ringbuffer) (cnt : Nat) : Ringbuffer × List Nat × Nat :=
  let (bytes, c) := lv2_ringbuffer_peek rb cnt
  ({ rb with read_ptr := (rb.read_ptr + c) % WORD }, bytes, c)

/-- `lv2_ringbuffer_write`: clamps the count to `write_space` (silent
truncation), stores byte `src[i]` at `(write_ptr + i) & size_mask`, then
advances `write_ptr` (wrapping modulo `2 ^ 64`).  Returns the new state and
the number of bytes actually written. -/
def lv2_ringbuffer_write (rb : Ringbuffer) (src : List Nat) (cnt : Nat) :
    Ringbuffer × Nat :=
  let space := lv2_ringbuffer_write_space rb
  let c := min cnt space
  let buf' := (List.range c).foldl
    (fun b i => Function.update b (((rb.write_ptr + i) % WORD) &&& rb.size_mask) (src.getD i 0))
    rb.buf
  ({ rb with buf := buf', write_ptr := (rb.write_ptr + c) % WORD }, c)

/-- The byte FIFO currently stored in the ring: the bytes from `read_ptr`
(inclusive) up to `write_ptr` (exclusive), in read order. -/
def rbContents (rb : Ringbuffer) : List Nat :=
  (List.range (lv2_ringbuffer_read_space rb)).map
    (fun i => rb.buf (((rb.read_ptr + i) % WORD) &&& rb.size_mask))

/-- Well-formedness of a ring buffer reachable from `lv2_ringbuffer_create`:
the capacity is a power of two that fits in `size_t`, the mask is `size - 1`,
both positions are reduced modulo `2 ^ 64`, and at most `size` bytes are
pending. -/
def rbInv (rb : Ringbuffer) : Prop :=
  (∃ k, k < 64 ∧ rb.size = 2 ^ k) ∧
  rb.size_mask = rb.size - 1 ∧
  rb.write_ptr < WORD ∧
  rb.read_ptr < WORD ∧
  lv2_ringbuffer_read_space rb ≤ rb.size

theorem rb_size_pos {rb : Ringbuffer} (h : rbInv rb) : 0 < rb.size := by
  obtain ⟨⟨k, _, hk⟩, -⟩ := h
  rw [hk]
  exact Nat.pos_pow_of_pos k (by norm_num)

theorem rb_size_lt_WORD {rb : Ringbuffer} (h : rbInv rb) : rb.size < WORD := by
  obtain ⟨⟨k, hk64, hk⟩, -⟩ := h
  rw [hk, WORD]
  exact Nat.pow_lt_pow_right (by norm_num) hk64

theorem rb_size_dvd_WORD {rb : Ringbuffer} (h : rbInv rb) : rb.size ∣ WORD := by
  obtain ⟨⟨k, hk64, hk⟩, -⟩ := h
  rw [hk, WORD]
  exact pow_dvd_pow 2 (Nat.le_of_lt hk64)

theorem read_space_lt_WORD (rb : Ringbuffer) :
    lv2_ringbuffer_read_space rb < WORD := by
  have : 0 < WORD := by rw [WORD_eq]; norm_num
  exact Nat.mod_lt _ this

/-- Under the invariant, `write_space` is the exact free room
`size - read_space`. -/
theorem write_space_eq {rb : Ringbuffer} (h : rbInv rb) :
    lv2_ringbuffer_write_space rb = rb.size - lv2_ringbuffer_read_space rb := by
  have hle := h.2.2.2.2
  have hlt := rb_size_lt_WORD h
  simp only [lv2_ringbuffer_write_space, lv2_ringbuffer_read_space] at *
  rw [WORD_eq] at *
  omega

/-- Masking with `size_mask` after the `size_t` wrap is reduction modulo the
(power of two) capacity. -/
theorem mask_eq_mod {rb : Ringbuffer} (h : rbInv rb) (x : Nat) :
    ((x % WORD) &&& rb.size_mask) = x % rb.size := by
  have hdvd : rb.size ∣ WORD := rb_size_dvd_WORD h
  obtain ⟨⟨k, hk64, hk⟩, hmask, -⟩ := h
  rw [hmask, hk]
  have h1 : x % WORD &&& 2 ^ k - 1 = x % WORD % 2 ^ k :=
    Nat.and_pow_two_sub_one_eq_mod (x % WORD) k
  rw [h1, Nat.mod_mod_of_dvd]
  rw [hk] at hdvd
  exact hdvd

theorem reset_inv {rb : Ringbuffer} (h : rbInv rb) :
    rbInv (lv2_ringbuffer_reset rb) ∧
      lv2_ringbuffer_read_space (lv2_ringbuffer_reset rb) = 0 := by
  obtain ⟨hpow, hmask, -, -, -⟩ := h
  have h0 : lv2_ringbuffer_read_space (lv2_ringbuffer_reset rb) = 0 := by
    unfold lv2_ringbuffer_read_space lv2_ringbuffer_reset
    simp
  refine ⟨⟨hpow, hmask, ?_, ?_, ?_⟩, h0⟩
  · show (0 : Nat) < WORD
    rw [WORD_eq]; norm_num
  · show (0 : Nat) < WORD
    rw [WORD_eq]; norm_num
  · rw [h0]; exact Nat.zero_le _

theorem write_read_space {rb : Ringbuffer} (h : rbInv rb) (src : List Nat) (cnt : Nat) :
    lv2_ringbuffer_read_space (lv2_ringbuffer_write rb src cnt).1 =
      lv2_ringbuffer_read_space rb + min cnt (lv2_ringbuffer_write_space rb) := by
  have hle := h.2.2.2.2
  have hw := h.2.2.1
  have hr := h.2.2.2.1
  have hlt := rb_size_lt_WORD h
  simp only [lv2_ringbuffer_write, lv2_ringbuffer_read_space,
    lv2_ringbuffer_write_space] at *
  rw [WORD_eq] at *
  omega

theorem write_inv {rb : Ringbuffer} (h : rbInv rb) (src : List Nat) (cnt : Nat) :
    rbInv (lv2_ringbuffer_write rb src cnt).1 ∧
      (lv2_ringbuffer_write rb src cnt).1.size = rb.size := by
  have hrs := write_read_space h src cnt
  have hwse := write_space_eq h
  obtain ⟨hpow, hmask, hw, hr, hle⟩ := h
  refine ⟨⟨hpow, hmask, ?_, hr, ?_⟩, rfl⟩
  · show (rb.write_ptr + _) % WORD < WORD
    have : 0 < WORD := by rw [WORD_eq]; norm_num
    exact Nat.mod_lt _ this
  · show lv2_ringbuffer_read_space (lv2_ringbuffer_write rb src cnt).1 ≤ rb.size
    rw [hrs, hwse]
    have := Nat.min_le_right cnt (rb.size - lv2_ringbuffer_read_space rb)
    omega

theorem read_read_space {rb : Ringbuffer} (h : rbInv rb) (cnt : Nat) :
    lv2_ringbuffer_read_space (lv2_ringbuffer_read rb cnt).1 =
      lv2_ringbuffer_read_space rb - min cnt (lv2_ringbuffer_read_space rb) := by
  have hle := h.2.2.2.2
  have hw := h.2.2.1
  have hr := h.2.2.2.1
  have hlt := rb_size_lt_WORD h
  simp only [lv2_ringbuffer_read, lv2_ringbuffer_peek, lv2_ringbuffer_read_space] at *
  rw [WORD_eq] at *
  omega

theorem read_inv {rb : Ringbuffer} (h : rbInv rb) (cnt : Nat) :
    rbInv (lv2_ringbuffer_read rb cnt).1 ∧
      (lv2_ringbuffer_read rb cnt).1.size = rb.size := by
  have hrs := read_read_space h cnt
  obtain ⟨hpow, hmask, hw, hr, hle⟩ := h
  refine ⟨⟨hpow, hmask, hw, ?_, ?_⟩, rfl⟩
  · show (rb.read_ptr + _) % WORD < WORD
    have : 0 < WORD := by rw [WORD_eq]; norm_num
    exact Nat.mod_lt _ this
  · show lv2_ringbuffer_read_space (lv2_ringbuffer_read rb cnt).1 ≤ rb.size
    rw [hrs]
    omega

/-- One call against a ring buffer, as performed by the host threads. -/
inductive RBOp where
  | write (src : List Nat) (cnt : Nat)
  | read (cnt : Nat)
  | peek (cnt : Nat)
  | reset

/-- State transition of a single ring buffer call (`peek` leaves the state
unchanged). -/
def applyRBOp (rb : Ringbuffer) : RBOp → Ringbuffer
  | .write src cnt => (lv2_ringbuffer_write rb src cnt).1
  | .read cnt => (lv2_ringbuffer_read rb cnt).1
  | .peek _ => rb
  | .reset => lv2_ringbuffer_reset rb

/-- Run a sequence of ring buffer calls. -/
def runRBOps (rb : Ringbuffer) (ops : List RBOp) : Ringbuffer :=
  ops.foldl applyRBOp rb

theorem applyRBOp_inv {rb : Ringbuffer} (h : rbInv rb) (op : RBOp) :
    rbInv (applyRBOp rb op) ∧ (applyRBOp rb op).size = rb.size := by
  cases op with
  | write src cnt => exact write_inv h src cnt
  | read cnt => exact read_inv h cnt
  | peek cnt => exact ⟨h, rfl⟩
  | reset => exact ⟨(reset_inv h).1, rfl⟩

theorem runRBOps_inv {rb : Ringbuffer} (h : rbInv rb) (ops : List RBOp) :
    rbInv (runRBOps rb ops) ∧ (runRBOps rb ops).size = rb.size := by
  induction ops generalizing rb with
  | nil => exact ⟨h, rfl⟩
  | cons op ops ih =>
    obtain ⟨h1, h2⟩ := applyRBOp_inv h op
    obtain ⟨h3, h4⟩ := ih h1
    exact ⟨h3, by rw [show runRBOps rb (op :: ops) = runRBOps (applyRBOp rb op) ops from rfl, h4, h2]⟩

theorem create_rbInv {k : Nat} (hk : k < 64) {rb : Ringbuffer}
    (h : lv2_ringbuffer_create (2 ^ k) = some rb) :
    rbInv rb ∧ rb.size = 2 ^ k := by
  have hpow : is_power_of_two (2 ^ k) = true := by
    unfold is_power_of_two
    have h1 : 2 ^ k &&& (2 ^ k - 1) = 2 ^ k % 2 ^ k :=
      Nat.and_pow_two_sub_one_eq_mod (2 ^ k) k
    have h2 : (2 : Nat) ^ k ≠ 0 := (Nat.pos_pow_of_pos k (by norm_num)).ne'
    simp [h1, h2, Nat.mod_self]
  unfold lv2_ringbuffer_create at h
  rw [hpow] at h
  simp only [if_true] at h
  obtain rfl := (Option.some_inj.mp h).symm
  refine ⟨⟨⟨k, hk, rfl⟩, rfl, ?_, ?_, ?_⟩, rfl⟩
  · show (0 : Nat) < WORD
    rw [WORD_eq]; norm_num
  · show (0 : Nat) < WORD
    rw [WORD_eq]; norm_num
  · show lv2_ringbuffer_read_space _ ≤ _
    unfold lv2_ringbuffer_read_space
    simp

/-- Claim C8: for any ring buffer created with power-of-two capacity `C`
(fitting in `size_t`), after any interleaving of write, read, peek and reset
calls, `write_space + read_space = C`. -/
theorem rb_space_sum_invariant (k : Nat) (hk : k < 64) (rb0 : Ringbuffer)
    (h0 : lv2_ringbuffer_create (2 ^ k) = some rb0) (ops : List RBOp) :
    lv2_ringbuffer_write_space (runRBOps rb0 ops) +
      lv2_ringbuffer_read_space (runRBOps rb0 ops) = 2 ^ k := by
  obtain ⟨hinv0, hsz0⟩ := create_rbInv hk h0
  obtain ⟨hinv, hsz⟩ := runRBOps_inv hinv0 ops
  have hle := hinv.2.2.2.2
  rw [write_space_eq hinv, hsz, hsz0] at *
  omega

/-- Concrete 16-byte ring buffer, the result of `lv2_ringbuffer_create 16`. -/
def ringbuffer16 : Ringbuffer :=
  { buf := fun _ => 0, size := 16, size_mask := 15, write_ptr := 0, read_ptr := 0 }

/-- Witness for C8 at capacity 16 with a write of 3 bytes and a read of 2. -/
theorem rb_space_sum_invariant_witness :
    lv2_ringbuffer_write_space (runRBOps ringbuffer16 [RBOp.write [1, 2, 3] 3, RBOp.read 2]) +
      lv2_ringbuffer_read_space (runRBOps ringbuffer16 [RBOp.write [1, 2, 3] 3, RBOp.read 2]) = 2 ^ 4 :=
  rb_space_sum_invariant 4 (by decide) ringbuffer16 rfl
    [RBOp.write [1, 2, 3] 3, RBOp.read 2]

/-- After a fold of pointwise updates, an index hit by no update keeps its
old value. -/
theorem foldl_update_not_hit {β : Type} (l : List Nat) (pos : Nat → Nat) (val : Nat → β)
    (b : Nat → β) (j : Nat) (h : ∀ i ∈ l, pos i ≠ j) :
    (l.foldl (fun acc i => Function.update acc (pos i) (val i)) b) j = b j := by
  induction l generalizing b with
  | nil => rfl
  | cons a t ih =>
    have ha : pos a ≠ j := h a (List.mem_cons_self a t)
    have ht : ∀ i ∈ t, pos i ≠ j := fun i hi => h i (List.mem_cons_of_mem a hi)
    show (t.foldl (fun acc i => Function.update acc (pos i) (val i))
        (Function.update b (pos a) (val a))) j = b j
    rw [ih (Function.update b (pos a) (val a)) ht]
    exact Function.update_noteq (fun hj => ha hj.symm) (val a) b

/-- After a fold of pointwise updates over a duplicate-free index list, an
index hit by exactly one update carries that update's value. -/
theorem foldl_update_hit {β : Type} (l : List Nat) (hnd : l.Nodup) (pos : Nat → Nat)
    (val : Nat → β) (b : Nat → β) (j i : Nat) (hi : i ∈ l) (hpos : pos i = j)
    (huniq : ∀ i2 ∈ l, pos i2 = j → i2 = i) :
    (l.foldl (fun acc i => Function.update acc (pos i) (val i)) b) j = val i := by
  induction l generalizing b with
  | nil => exact absurd hi (List.not_mem_nil i)
  | cons a t ih =>
    show (t.foldl (fun acc i => Function.update acc (pos i) (val i))
        (Function.update b (pos a) (val a))) j = val i
    by_cases hai : a = i
    · subst hai
      have hnot : a ∉ t := (List.nodup_cons.mp hnd).1
      have ht : ∀ i2 ∈ t, pos i2 ≠ j := by
        intro i2 h2 hj2
        exact hnot ((huniq i2 (List.mem_cons_of_mem a h2) hj2) ▸ h2)
      rw [foldl_update_not_hit t pos val _ j ht]
      rw [← hpos]
      exact Function.update_same (pos a) (val a) b
    · have hit : i ∈ t := by
        rcases List.mem_cons.mp hi with h1 | h1
        · exact absurd h1.symm hai
        · exact h1
      exact ih (List.nodup_cons.mp hnd).2 _ hit
        (fun i2 h2 hj2 => huniq i2 (List.mem_cons_of_mem a h2) hj2)

/-- Residues `(r + a) % s` are injective for `a < s`. -/
theorem add_mod_inj {s r a b : Nat} (ha : a < s) (hb : b < s)
    (hab : (r + a) % s = (r + b) % s) : a = b := by
  have h1 : r + a ≡ r + b [MOD s] := hab
  have h2 : a ≡ b [MOD s] := Nat.ModEq.add_left_cancel' r h1
  exact Nat.ModEq.eq_of_lt_of_lt h2 ha hb

/-- The write position sits `read_space` bytes after the read position,
modulo the capacity. -/
theorem wptr_congr {rb : Ringbuffer} (h : rbInv rb) :
    (rb.read_ptr + lv2_ringbuffer_read_space rb) % rb.size = rb.write_ptr % rb.size := by
  have hdvd := rb_size_dvd_WORD h
  have hr := h.2.2.2.1
  have h1 : rb.read_ptr + lv2_ringbuffer_read_space rb ≡
      rb.read_ptr + (rb.write_ptr + WORD - rb.read_ptr) [MOD WORD] :=
    Nat.ModEq.add_left _ (Nat.mod_modEq _ _)
  have h2 : rb.read_ptr + (rb.write_ptr + WORD - rb.read_ptr) = rb.write_ptr + WORD := by
    rw [WORD_eq] at *
    omega
  rw [h2] at h1
  have h3 : rb.read_ptr + lv2_ringbuffer_read_space rb ≡ rb.write_ptr [MOD WORD] :=
    h1.trans Nat.add_modEq_right
  exact Nat.ModEq.of_dvd hdvd h3

/-- `(List.range l.length).map (fun i => l.getD i 0) = l`. -/
theorem map_getD_range (l : List Nat) :
    (List.range l.length).map (fun i => l.getD i 0) = l := by
  apply List.ext_getElem
  · simp
  · intro i h1 h2
    simp only [List.getElem_map, List.getElem_range]
    rw [List.getD_eq_getElem?_getD, List.getElem?_eq_getElem h2]
    rfl

/-- A write that fits in the free room appends its bytes, in order, to the
FIFO contents of the ring. -/
theorem write_rbContents {rb : Ringbuffer} (h : rbInv rb) (src : List Nat) (cnt : Nat)
    (hcnt : cnt ≤ lv2_ringbuffer_write_space rb) :
    rbContents (lv2_ringbuffer_write rb src cnt).1 =
      rbContents rb ++ (List.range cnt).map (fun i => src.getD i 0) := by
  have hspos := rb_size_pos h
  have hwse := write_space_eq h
  have hn := h.2.2.2.2
  have hkey := wptr_congr h
  have hmin : min cnt (lv2_ringbuffer_write_space rb) = cnt := Nat.min_eq_left hcnt
  have hrs : lv2_ringbuffer_read_space (lv2_ringbuffer_write rb src cnt).1 =
      lv2_ringbuffer_read_space rb + cnt := by
    rw [write_read_space h src cnt, hmin]
  have hsum : lv2_ringbuffer_read_space rb + cnt ≤ rb.size := by omega
  -- the positions written by this call, as residues modulo the capacity
  have hposmod : ∀ q, ((rb.write_ptr + q) % WORD) &&& rb.size_mask =
      (rb.read_ptr + (lv2_ringbuffer_read_space rb + q)) % rb.size := by
    intro q
    rw [mask_eq_mod h]
    have hassoc : rb.read_ptr + (lv2_ringbuffer_read_space rb + q) =
        rb.read_ptr + lv2_ringbuffer_read_space rb + q := by omega
    rw [hassoc, Nat.add_mod, ← hkey, ← Nat.add_mod]
  have hidxmod : ∀ i, ((rb.read_ptr + i) % WORD) &&& rb.size_mask =
      (rb.read_ptr + i) % rb.size := fun i => mask_eq_mod h _
  show (List.range (lv2_ringbuffer_read_space (lv2_ringbuffer_write rb src cnt).1)).map _ = _
  rw [hrs, List.range_add, List.map_append, List.map_map]
  congr 1
  · -- old bytes are untouched: none of the written positions collides
    apply List.map_congr_left
    intro i hi
    have hilt : i < lv2_ringbuffer_read_space rb := List.mem_range.mp hi
    show (lv2_ringbuffer_write rb src cnt).1.buf (((rb.read_ptr + i) % WORD) &&& rb.size_mask)
        = rb.buf (((rb.read_ptr + i) % WORD) &&& rb.size_mask)
    have hnot : ∀ q ∈ List.range (min cnt (lv2_ringbuffer_write_space rb)),
        ((rb.write_ptr + q) % WORD) &&& rb.size_mask ≠
          ((rb.read_ptr + i) % WORD) &&& rb.size_mask := by
      intro q hq
      have hqlt : q < cnt := by
        have := List.mem_range.mp hq
        omega
      rw [hposmod q, hidxmod i]
      intro hcontra
      have := add_mod_inj (s := rb.size) (r := rb.read_ptr) (by omega) (by omega) hcontra
      omega
    exact foldl_update_not_hit (List.range (min cnt (lv2_ringbuffer_write_space rb)))
      (fun q => ((rb.write_ptr + q) % WORD) &&& rb.size_mask)
      (fun q => src.getD q 0) rb.buf (((rb.read_ptr + i) % WORD) &&& rb.size_mask) hnot
  · -- the new bytes land exactly after the old contents
    apply List.map_congr_left
    intro q hq
    have hqlt : q < cnt := List.mem_range.mp hq
    show (lv2_ringbuffer_write rb src cnt).1.buf
        (((rb.read_ptr + (lv2_ringbuffer_read_space rb + q)) % WORD) &&& rb.size_mask)
        = src.getD q 0
    have hpos2 : ((rb.write_ptr + q) % WORD) &&& rb.size_mask =
        ((rb.read_ptr + (lv2_ringbuffer_read_space rb + q)) % WORD) &&& rb.size_mask :=
      (hposmod q).trans (hidxmod (lv2_ringbuffer_read_space rb + q)).symm
    have huniq : ∀ q2 ∈ List.range (min cnt (lv2_ringbuffer_write_space rb)),
        ((rb.write_ptr + q2) % WORD) &&& rb.size_mask =
          ((rb.read_ptr + (lv2_ringbuffer_read_space rb + q)) % WORD) &&& rb.size_mask →
          q2 = q := by
      intro q2 hq2 hj2
      have hq2lt : q2 < cnt := by
        have := List.mem_range.mp hq2
        omega
      rw [hposmod q2, hidxmod (lv2_ringbuffer_read_space rb + q)] at hj2
      have := add_mod_inj (s := rb.size) (r := rb.read_ptr) (by omega) (by omega) hj2
      omega
    exact foldl_update_hit (List.range (min cnt (lv2_ringbuffer_write_space rb)))
      (List.nodup_range _)
      (fun q2 => ((rb.write_ptr + q2) % WORD) &&& rb.size_mask)
      (fun q2 => src.getD q2 0) rb.buf
      (((rb.read_ptr + (lv2_ringbuffer_read_space rb + q)) % WORD) &&& rb.size_mask) q
      (by rw [hmin]; exact List.mem_range.mpr hqlt) hpos2 huniq

/-- Status codes returned by the worker callbacks
(`LV2_WORKER_SUCCESS` / `LV2_WORKER_ERR_NO_SPACE`). -/
inductive LV2WorkerStatus where
  | success
  | errNoSpace
deriving DecidableEq

/-- Host worker state (`LV2Plugin::LV2HostWorker`): request and response
rings plus the work-pending flag.  The thread handle and plugin interface
pointers play no part in the scheduled-data claims. -/
structure LV2HostWorker where
  requests : Ringbuffer
  responses : Ringbuffer
  work_pending : Bool

/-- The four bytes of a `uint32` in memory order (the target is
little-endian). -/
def u32_bytes (x : Nat) : List Nat :=
  [x % 256, x / 256 % 256, x / 65536 % 256, x / 16777216 % 256]

theorem u32_bytes_length (x : Nat) : (u32_bytes x).length = 4 := rfl

/-- `LV2Plugin::host_schedule_work`: with less than
`sizeof(uint32_t) + size` free bytes in the request ring it returns
`ERR_NO_SPACE` and touches nothing; otherwise it writes the length prefix,
then the payload, raises `work_pending` and returns success. -/
def host_schedule_work (w : LV2HostWorker) (size : Nat) (data : List Nat) :
    LV2HostWorker × LV2WorkerStatus :=
  let total := 4 + size
  if lv2_ringbuffer_write_space w.requests < total then
    (w, .errNoSpace)
  else
    let r1 := (lv2_ringbuffer_write w.requests (u32_bytes size) 4).1
    let r2 := (lv2_ringbuffer_write r1 data size).1
    ({ w with requests := r2, work_pending := true }, .success)

/-- `(List.range n).map (fun i => l.getD i 0) = l` when `n` is the length. -/
theorem map_getD_range_of_len (l : List Nat) (n : Nat) (h : n = l.length) :
    (List.range n).map (fun i => l.getD i 0) = l := by
  subst h
  exact map_getD_range l

/-- Claim C9: with enough free room the DSP-side schedule call enqueues
exactly the 4-byte length prefix followed by the payload (4 + size bytes in
total) and succeeds; otherwise it reports `ERR_NO_SPACE` and leaves the
request ring (indeed the whole worker state) unchanged. -/
theorem host_schedule_work_spec (w : LV2HostWorker) (size : Nat) (data : List Nat)
    (hinv : rbInv w.requests) (hdata : data.length = size) :
    (4 + size ≤ lv2_ringbuffer_write_space w.requests →
      (host_schedule_work w size data).2 = LV2WorkerStatus.success ∧
      rbContents (host_schedule_work w size data).1.requests =
        rbContents w.requests ++ u32_bytes size ++ data ∧
      lv2_ringbuffer_read_space (host_schedule_work w size data).1.requests =
        lv2_ringbuffer_read_space w.requests + (4 + size)) ∧
    (lv2_ringbuffer_write_space w.requests < 4 + size →
      (host_schedule_work w size data).2 = LV2WorkerStatus.errNoSpace ∧
      (host_schedule_work w size data).1 = w) := by
  constructor
  · intro hroom
    have hcond : ¬ lv2_ringbuffer_write_space w.requests < 4 + size := by omega
    have hstep2 : (host_schedule_work w size data).2 = LV2WorkerStatus.success := by
      simp only [host_schedule_work]
      rw [if_neg hcond]
    have hstep1 : (host_schedule_work w size data).1.requests =
        (lv2_ringbuffer_write (lv2_ringbuffer_write w.requests (u32_bytes size) 4).1 data size).1 := by
      simp only [host_schedule_work]
      rw [if_neg hcond]
    have hws := write_space_eq hinv
    have hle := hinv.2.2.2.2
    have h4 : 4 ≤ lv2_ringbuffer_write_space w.requests := by omega
    have hinv1 := (write_inv hinv (u32_bytes size) 4).1
    have hsz1 := (write_inv hinv (u32_bytes size) 4).2
    have hrs1 : lv2_ringbuffer_read_space (lv2_ringbuffer_write w.requests (u32_bytes size) 4).1 =
        lv2_ringbuffer_read_space w.requests + 4 := by
      rw [write_read_space hinv (u32_bytes size) 4, Nat.min_eq_left h4]
    have hc1 : rbContents (lv2_ringbuffer_write w.requests (u32_bytes size) 4).1 =
        rbContents w.requests ++ u32_bytes size := by
      rw [write_rbContents hinv (u32_bytes size) 4 h4,
        map_getD_range_of_len (u32_bytes size) 4 rfl]
    have hws1 := write_space_eq hinv1
    have hsize : size ≤
        lv2_ringbuffer_write_space (lv2_ringbuffer_write w.requests (u32_bytes size) 4).1 := by
      rw [hws1, hsz1, hrs1]
      omega
    have hrs2 : lv2_ringbuffer_read_space
        (lv2_ringbuffer_write (lv2_ringbuffer_write w.requests (u32_bytes size) 4).1 data size).1 =
        lv2_ringbuffer_read_space w.requests + 4 + size := by
      rw [write_read_space hinv1 data size, Nat.min_eq_left hsize, hrs1]
    have hc2 : rbContents
        (lv2_ringbuffer_write (lv2_ringbuffer_write w.requests (u32_bytes size) 4).1 data size).1 =
        rbContents w.requests ++ u32_bytes size ++ data := by
      rw [write_rbContents hinv1 data size hsize, hc1,
        map_getD_range_of_len data size hdata.symm]
    refine ⟨hstep2, ?_, ?_⟩
    · rw [hstep1]
      exact hc2
    · rw [hstep1, hrs2]
      omega
  · intro hfull
    have hstep2 : (host_schedule_work w size data).2 = LV2WorkerStatus.errNoSpace := by
      simp only [host_schedule_work]
      rw [if_pos hfull]
    have hstep1 : (host_schedule_work w size data).1 = w := by
      simp only [host_schedule_work]
      rw [if_pos hfull]
    exact ⟨hstep2, hstep1⟩


/-- A concrete worker whose rings are fresh 16-byte buffers. -/
def worker16 : LV2HostWorker :=
  { requests := ringbuffer16, responses := ringbuffer16, work_pending := false }

/-- Witness for C9: scheduling a 2-byte payload on a fresh 16-byte request
ring. -/
theorem host_schedule_work_spec_witness :
    (4 + 2 ≤ lv2_ringbuffer_write_space worker16.requests →
      (host_schedule_work worker16 2 [10, 20]).2 = LV2WorkerStatus.success ∧
      rbContents (host_schedule_work worker16 2 [10, 20]).1.requests =
        rbContents worker16.requests ++ u32_bytes 2 ++ [10, 20] ∧
      lv2_ringbuffer_read_space (host_schedule_work worker16 2 [10, 20]).1.requests =
        lv2_ringbuffer_read_space worker16.requests + (4 + 2)) ∧
    (lv2_ringbuffer_write_space worker16.requests < 4 + 2 →
      (host_schedule_work worker16 2 [10, 20]).2 = LV2WorkerStatus.errNoSpace ∧
      (host_schedule_work worker16 2 [10, 20]).1 = worker16) :=
  host_schedule_work_spec worker16 2 [10, 20]
    (create_rbInv (k := 4) (by decide) rfl).1 rfl

/-- One event of an LV2 atom sequence: frame offset, body type URID and body
bytes (`LV2_Atom_Event`; the body size is the length of `body`). -/
structure AtomEvent where
  frames : Int
  etype : Nat
  body : List Nat
deriving DecidableEq

/-- The bytes the export loop writes for one event: the `LV2_Atom` header of
the event body (`uint32 size`, then `uint32 type`) followed by the body
bytes; `sizeof(LV2_Atom) + ev->body.size` bytes in total. -/
def atom_event_bytes (ev : AtomEvent) : List Nat :=
  u32_bytes ev.body.length ++ u32_bytes ev.etype ++ ev.body

theorem atom_event_bytes_length (ev : AtomEvent) :
    (atom_event_bytes ev).length = 8 + ev.body.length := by
  simp [atom_event_bytes, u32_bytes]
  omega

/-- One iteration of the DSP→UI export in `process()` step E: if the ring
has at least `sizeof(LV2_Atom) + ev->body.size` free bytes the event is
written, otherwise nothing at all happens. -/
def export_event (rb : Ringbuffer) (ev : AtomEvent) : Ringbuffer :=
  let total := 8 + ev.body.length
  if lv2_ringbuffer_write_space rb ≥ total then
    (lv2_ringbuffer_write rb (atom_event_bytes ev) total).1
  else rb

/-- The `LV2_ATOM_SEQUENCE_FOREACH` export loop of `process()` step E over
one atom output port: `break` on an event with zero body size, `break` when
the sequence type is unset, otherwise export the event and continue. -/
def export_atom_output (seqType : Nat) (events : List AtomEvent) (rb : Ringbuffer) :
    Ringbuffer :=
  match events with
  | [] => rb
  | ev :: rest =>
    if ev.body.length = 0 then rb
    else if seqType = 0 then rb
    else export_atom_output seqType rest (export_event rb ev)

/-- A fresh 16 KiB ring, the default DSP→UI ring of an `AtomState`. -/
def ringbuffer16384 : Ringbuffer :=
  { buf := fun _ => 0, size := 16384, size_mask := 16383,
    write_ptr := 0, read_ptr := 0 }

/-- Counterexample to claim C5: the sequence holds a zero-size event followed
by a 1-byte event, the ring is empty (plenty of room), yet nothing is
written — the loop breaks at the zero-size event instead of skipping it. -/
theorem export_break_counterexample :
    export_atom_output 3
      [{ frames := 0, etype := 7, body := [] },
       { frames := 0, etype := 7, body := [42] }] ringbuffer16384 = ringbuffer16384 ∧
    lv2_ringbuffer_read_space
      (export_atom_output 3
        [{ frames := 0, etype := 7, body := [] },
         { frames := 0, etype := 7, body := [42] }] ringbuffer16384) = 0 ∧
    8 + 1 ≤ lv2_ringbuffer_write_space ringbuffer16384 :=
  ⟨rfl, by decide, by decide⟩

/-- Claim C5 (amended): the export loop writes the events of the longest
prefix with non-zero body sizes — stopping, not skipping, at the first
zero-size event — and exports nothing when the sequence type is unset; each
exported event that fits is appended to the ring as header plus body. -/
theorem export_atom_output_spec (t : Nat) (evs : List AtomEvent) (rb : Ringbuffer) :
    (t ≠ 0 → export_atom_output t evs rb =
      (evs.takeWhile (fun e => e.body.length != 0)).foldl export_event rb) ∧
    (t = 0 → export_atom_output t evs rb = rb) ∧
    (∀ r : Ringbuffer, ∀ ev : AtomEvent, rbInv r →
      8 + ev.body.length ≤ lv2_ringbuffer_write_space r →
      rbContents (export_event r ev) = rbContents r ++ atom_event_bytes ev) := by
  refine ⟨?_, ?_, ?_⟩
  · intro ht
    induction evs generalizing rb with
    | nil => rfl
    | cons ev rest ih =>
      by_cases hz : ev.body.length = 0
      · show (if ev.body.length = 0 then rb else _) = _
        rw [if_pos hz, List.takeWhile_cons]
        have : (ev.body.length != 0) = false := by simp [hz]
        rw [this]
        rfl
      · show (if ev.body.length = 0 then rb else if t = 0 then rb else _) = _
        rw [if_neg hz, if_neg ht, List.takeWhile_cons]
        have : (ev.body.length != 0) = true := by simp [hz]
        rw [this]
        exact ih (export_event rb ev)
  · intro ht
    subst ht
    cases evs with
    | nil => rfl
    | cons ev rest =>
      show (if ev.body.length = 0 then rb else if (0 : Nat) = 0 then rb else _) = rb
      by_cases hz : ev.body.length = 0
      · rw [if_pos hz]
      · rw [if_neg hz, if_pos rfl]
  · intro r ev hinv hroom
    have hev : export_event r ev =
        (lv2_ringbuffer_write r (atom_event_bytes ev) (8 + ev.body.length)).1 := by
      simp only [export_event]
      rw [if_pos hroom]
    rw [hev, write_rbContents hinv (atom_event_bytes ev) (8 + ev.body.length) hroom,
      map_getD_range_of_len (atom_event_bytes ev) (8 + ev.body.length)
        (atom_event_bytes_length ev).symm]

/-- Witness for C5 (amended) at a concrete sequence with one non-empty
event. -/
theorem export_atom_output_spec_witness :
    export_atom_output 3 [{ frames := 0, etype := 7, body := [42] }] ringbuffer16384 =
      (([{ frames := 0, etype := 7, body := [42] }] :
          List AtomEvent).takeWhile (fun e => e.body.length != 0)).foldl
        export_event ringbuffer16384 :=
  (export_atom_output_spec 3 [{ frames := 0, etype := 7, body := [42] }]
    ringbuffer16384).1 (by decide)

/-- Counterexample to claim C6: a 16-byte ring without room for a 9-byte
body (17 bytes with header).  The event is dropped and the whole state —
which per the source holds no overrun counter at all — is left exactly as it
was, so no counter visible to the UI is incremented. -/
theorem export_drop_counterexample :
    lv2_ringbuffer_write_space ringbuffer16 <
      8 + ({ frames := 0, etype := 5, body := [1, 2, 3, 4, 5, 6, 7, 8, 9] } : AtomEvent).body.length ∧
    export_event ringbuffer16
      { frames := 0, etype := 5, body := [1, 2, 3, 4, 5, 6, 7, 8, 9] } = ringbuffer16 :=
  ⟨by decide, rfl⟩

/-- Claim C6 (amended): when the DSP→UI ring lacks room for an atom event the
event is dropped silently and nothing changes at all — the source maintains
no overrun counter. -/
theorem export_event_no_space (rb : Ringbuffer) (ev : AtomEvent)
    (h : lv2_ringbuffer_write_space rb < 8 + ev.body.length) :
    export_event rb ev = rb := by
  show (if lv2_ringbuffer_write_space rb ≥ 8 + ev.body.length then _ else rb) = rb
  rw [if_neg (by omega)]

/-- Witness for C6 (amended): dropping a 9-byte event on a full 16-byte
ring. -/
theorem export_event_no_space_witness :
    export_event ringbuffer16
      { frames := 0, etype := 5, body := [1, 2, 3, 4, 5, 6, 7, 8, 9] } = ringbuffer16 :=
  export_event_no_space ringbuffer16
    { frames := 0, etype := 5, body := [1, 2, 3, 4, 5, 6, 7, 8, 9] } (by decide)

/-- The URID registry of `LV2Plugin`: the two hash tables `urid_map_`
(string to id) and `urid_unmap_` (id to string), modelled as association
lists in insertion order. -/
structure UridRegistry where
  urid_map : List (String × Nat)
  urid_unmap : List (Nat × String)

/-- `LV2Plugin::map_uri`: return the existing id when the URI is present,
else allocate `urid_map_.size() + 1` and record the pair in both tables. -/
def map_uri (st : UridRegistry) (uri : String) : UridRegistry × Nat :=
  match st.urid_map.lookup uri with
  | some id => (st, id)
  | none =>
    let id := st.urid_map.length + 1
    ({ urid_map := st.urid_map ++ [(uri, id)],
       urid_unmap := st.urid_unmap ++ [(id, uri)] }, id)

/-- `LV2Plugin::unmap_uri`: the reverse table lookup, `none` (a null
`const char*`) when the id was never allocated. -/
def unmap_uri (st : UridRegistry) (urid : Nat) : Option String :=
  st.urid_unmap.lookup urid

/-- The registry of a fresh `LV2Plugin` instance: both tables empty. -/
def emptyRegistry : UridRegistry := { urid_map := [], urid_unmap := [] }

/-- Run a sequence of `map_uri` calls (the only state-changing registry
operation; `unmap_uri` reads only). -/
def runMapCalls (st : UridRegistry) (uris : List String) : UridRegistry :=
  uris.foldl (fun s u => (map_uri s u).1) st

/-- Registry well-formedness: ids are `1, 2, …, n` in insertion order, keys
are distinct, and the reverse table mirrors the forward table. -/
def UridWF (st : UridRegistry) : Prop :=
  st.urid_map.map Prod.snd = List.range' 1 st.urid_map.length ∧
  (st.urid_map.map Prod.fst).Nodup ∧
  st.urid_unmap = st.urid_map.map (fun p => (p.2, p.1))

theorem lookup_some_mem {α β : Type} [BEq α] [LawfulBEq α] {l : List (α × β)} {k : α} {v : β}
    (h : l.lookup k = some v) : (k, v) ∈ l := by
  induction l with
  | nil => simp [List.lookup] at h
  | cons a t ih =>
    obtain ⟨k2, v2⟩ := a
    by_cases hk : k = k2
    · subst hk
      rw [List.lookup_cons_self] at h
      obtain rfl := Option.some_inj.mp h
      exact List.mem_cons_self _ _
    · have hbeq : (k == k2) = false := beq_eq_false_iff_ne.mpr hk
      have h2 : ((k2, v2) :: t).lookup k = t.lookup k := by
        simp [List.lookup, hbeq]
      rw [h2] at h
      exact List.mem_cons_of_mem _ (ih h)

theorem lookup_of_mem_nodup {α β : Type} [BEq α] [LawfulBEq α] {l : List (α × β)}
    (h : (l.map Prod.fst).Nodup) {k : α} {v : β} (hm : (k, v) ∈ l) :
    l.lookup k = some v := by
  induction l with
  | nil => exact absurd hm (List.not_mem_nil _)
  | cons a t ih =>
    obtain ⟨k2, v2⟩ := a
    rw [List.map_cons] at h
    have hn := List.nodup_cons.mp h
    rcases List.mem_cons.mp hm with h1 | h1
    · obtain ⟨rfl, rfl⟩ := Prod.mk.injEq k v k2 v2 ▸ h1
      exact List.lookup_cons_self
    · have hk2 : k ≠ k2 := by
        intro hk
        subst hk
        exact hn.1 (List.mem_map.mpr ⟨(k, v), h1, rfl⟩)
      have hbeq : (k == k2) = false := beq_eq_false_iff_ne.mpr hk2
      have h2 : ((k2, v2) :: t).lookup k = t.lookup k := by
        simp [List.lookup, hbeq]
      rw [h2]
      exact ih hn.2 h1

theorem lookup_none_not_key {α β : Type} [BEq α] [LawfulBEq α] {l : List (α × β)} {k : α}
    (h : l.lookup k = none) : ∀ p ∈ l, k ≠ p.1 := by
  intro p hp hk
  have h2 := List.lookup_eq_none_iff.mp h p hp
  subst hk
  simp at h2

theorem mem_snd_unique {α β : Type} {l : List (α × β)} (h : (l.map Prod.snd).Nodup)
    {p q : α × β} (hp : p ∈ l) (hq : q ∈ l) (he : p.2 = q.2) : p = q := by
  induction l with
  | nil => exact absurd hp (List.not_mem_nil _)
  | cons a t ih =>
    rw [List.map_cons] at h
    have hn := List.nodup_cons.mp h
    rcases List.mem_cons.mp hp with h1 | h1 <;> rcases List.mem_cons.mp hq with h2 | h2
    · rw [h1, h2]
    · exfalso
      subst h1
      have hm : q.2 ∈ t.map Prod.snd := List.mem_map.mpr ⟨q, h2, rfl⟩
      rw [← he] at hm
      exact hn.1 hm
    · exfalso
      subst h2
      have hm : p.2 ∈ t.map Prod.snd := List.mem_map.mpr ⟨p, h1, rfl⟩
      rw [he] at hm
      exact hn.1 hm
    · exact ih hn.2 h1 h2

theorem map_uri_of_lookup_some {st : UridRegistry} {uri : String} {id : Nat}
    (h : st.urid_map.lookup uri = some id) : map_uri st uri = (st, id) := by
  simp only [map_uri, h]

theorem map_uri_of_lookup_none {st : UridRegistry} {uri : String}
    (h : st.urid_map.lookup uri = none) :
    map_uri st uri =
      ({ urid_map := st.urid_map ++ [(uri, st.urid_map.length + 1)],
         urid_unmap := st.urid_unmap ++ [(st.urid_map.length + 1, uri)] },
       st.urid_map.length + 1) := by
  simp only [map_uri, h]

theorem urid_id_bounds {st : UridRegistry} (hwf : UridWF st) {s : String} {i : Nat}
    (hm : (s, i) ∈ st.urid_map) : 1 ≤ i ∧ i ≤ st.urid_map.length := by
  have hmem : i ∈ st.urid_map.map Prod.snd := List.mem_map.mpr ⟨(s, i), hm, rfl⟩
  rw [hwf.1] at hmem
  obtain ⟨q, hq, hqe⟩ := List.mem_range'.mp hmem
  omega

theorem urid_lookup_inj {st : UridRegistry} (hwf : UridWF st) {s t : String} {i j : Nat}
    (hs : st.urid_map.lookup s = some i) (ht : st.urid_map.lookup t = some j)
    (hne : s ≠ t) : i ≠ j := by
  intro hij
  subst hij
  have hms := lookup_some_mem hs
  have hmt := lookup_some_mem ht
  have hnd : (st.urid_map.map Prod.snd).Nodup := by
    rw [hwf.1]
    exact List.nodup_range' 1 st.urid_map.length
  have heq := mem_snd_unique hnd hms hmt rfl
  exact hne (congrArg Prod.fst heq)

theorem map_uri_wf {st : UridRegistry} (hwf : UridWF st) (uri : String) :
    UridWF (map_uri st uri).1 := by
  cases hl : st.urid_map.lookup uri with
  | some id =>
    rw [map_uri_of_lookup_some hl]
    exact hwf
  | none =>
    rw [map_uri_of_lookup_none hl]
    refine ⟨?_, ?_, ?_⟩
    · show (st.urid_map ++ [(uri, st.urid_map.length + 1)]).map Prod.snd =
        List.range' 1 (st.urid_map ++ [(uri, st.urid_map.length + 1)]).length
      rw [List.map_append, hwf.1]
      simp only [List.map_cons, List.map_nil, List.length_append, List.length_cons,
        List.length_nil, Nat.zero_add]
      rw [List.range'_concat]
      norm_num
      omega
    · show ((st.urid_map ++ [(uri, st.urid_map.length + 1)]).map Prod.fst).Nodup
      rw [List.map_append, List.nodup_append]
      refine ⟨hwf.2.1, List.nodup_singleton _, ?_⟩
      intro a ha hb
      have hne := lookup_none_not_key hl
      rcases List.mem_map.mp ha with ⟨p, hp, rfl⟩
      simp only [List.map_cons, List.map_nil, List.mem_singleton] at hb
      exact hne p hp hb.symm
    · show st.urid_unmap ++ [(st.urid_map.length + 1, uri)] =
        (st.urid_map ++ [(uri, st.urid_map.length + 1)]).map (fun p => (p.2, p.1))
      rw [hwf.2.2, List.map_append]
      rfl

theorem runMapCalls_wf (uris : List String) : UridWF (runMapCalls emptyRegistry uris) := by
  have hgen : ∀ st, UridWF st → UridWF (runMapCalls st uris) := by
    induction uris with
    | nil => exact fun st h => h
    | cons u rest ih => exact fun st h => ih _ (map_uri_wf h u)
  exact hgen emptyRegistry ⟨rfl, List.nodup_nil, rfl⟩

theorem map_uri_lookup_self (st : UridRegistry) (uri : String) :
    (map_uri st uri).1.urid_map.lookup uri = some (map_uri st uri).2 := by
  cases hl : st.urid_map.lookup uri with
  | some id => simp only [map_uri, hl]
  | none =>
    simp only [map_uri, hl]
    rw [List.lookup_append, hl]
    simp

/-- The seven registry guarantees, for an arbitrary well-formed registry. -/
theorem urid_wf_spec (st : UridRegistry) (hwf : UridWF st) (s t : String) (idx : Nat) :
    ((map_uri st s).2 ≠ 0) ∧
    (map_uri (map_uri st s).1 s = ((map_uri st s).1, (map_uri st s).2)) ∧
    (s ≠ t → (map_uri (map_uri st s).1 t).2 ≠ (map_uri st s).2) ∧
    (unmap_uri (map_uri st s).1 (map_uri st s).2 = some s) ∧
    (st.urid_map.map Prod.snd = List.range' 1 st.urid_map.length) ∧
    (st.urid_map.length < idx → unmap_uri st idx = none) ∧
    (unmap_uri st 0 = none) := by
  have hwf1 := map_uri_wf hwf s
  have hsel := map_uri_lookup_self st s
  have hmem := lookup_some_mem hsel
  have hbounds := urid_id_bounds hwf1 hmem
  refine ⟨?_, ?_, ?_, ?_, hwf.1, ?_, ?_⟩
  · omega
  · exact map_uri_of_lookup_some hsel
  · intro hne
    cases hlt : (map_uri st s).1.urid_map.lookup t with
    | some j =>
      rw [map_uri_of_lookup_some hlt]
      exact fun hj => urid_lookup_inj hwf1 hsel hlt hne hj.symm
    | none =>
      rw [map_uri_of_lookup_none hlt]
      show (map_uri st s).1.urid_map.length + 1 ≠ (map_uri st s).2
      omega
  · show (map_uri st s).1.urid_unmap.lookup (map_uri st s).2 = some s
    have hnd : ((map_uri st s).1.urid_unmap.map Prod.fst).Nodup := by
      rw [hwf1.2.2, List.map_map]
      have hcomp : (Prod.fst ∘ fun p : String × Nat => (p.2, p.1)) = Prod.snd := rfl
      rw [hcomp, hwf1.1]
      exact List.nodup_range' 1 _
    have hum : ((map_uri st s).2, s) ∈ (map_uri st s).1.urid_unmap := by
      rw [hwf1.2.2]
      exact List.mem_map.mpr ⟨(s, (map_uri st s).2), hmem, rfl⟩
    exact lookup_of_mem_nodup hnd hum
  · intro hgt
    apply List.lookup_eq_none_iff.mpr
    intro p hp
    have hp2 : p ∈ st.urid_map.map (fun q : String × Nat => (q.2, q.1)) := by
      rw [← hwf.2.2]
      exact hp
    rcases List.mem_map.mp hp2 with ⟨q, hq, rfl⟩
    have := urid_id_bounds hwf hq
    simp only [bne_iff_ne, ne_eq]
    omega
  · apply List.lookup_eq_none_iff.mpr
    intro p hp
    have hp2 : p ∈ st.urid_map.map (fun q : String × Nat => (q.2, q.1)) := by
      rw [← hwf.2.2]
      exact hp
    rcases List.mem_map.mp hp2 with ⟨q, hq, rfl⟩
    have := urid_id_bounds hwf hq
    simp only [bne_iff_ne, ne_eq]
    omega

/-- Claim C7: in any registry state reached by a sequence of `map_uri` calls
from the empty registry, `map` returns a non-zero id, repeated calls return
the same id without changing the state, distinct strings receive distinct
ids, ids are allocated sequentially starting at 1, `unmap` is a left inverse
of `map`, and `unmap` of a never-allocated id (0, or beyond the allocation
count) returns none. -/
theorem urid_registry_spec (uris : List String) (s t : String) (idx : Nat) :
    ((map_uri (runMapCalls emptyRegistry uris) s).2 ≠ 0) ∧
    (map_uri (map_uri (runMapCalls emptyRegistry uris) s).1 s =
      ((map_uri (runMapCalls emptyRegistry uris) s).1,
       (map_uri (runMapCalls emptyRegistry uris) s).2)) ∧
    (s ≠ t → (map_uri (map_uri (runMapCalls emptyRegistry uris) s).1 t).2 ≠
      (map_uri (runMapCalls emptyRegistry uris) s).2) ∧
    (unmap_uri (map_uri (runMapCalls emptyRegistry uris) s).1
      (map_uri (runMapCalls emptyRegistry uris) s).2 = some s) ∧
    ((runMapCalls emptyRegistry uris).urid_map.map Prod.snd =
      List.range' 1 (runMapCalls emptyRegistry uris).urid_map.length) ∧
    ((runMapCalls emptyRegistry uris).urid_map.length < idx →
      unmap_uri (runMapCalls emptyRegistry uris) idx = none) ∧
    (unmap_uri (runMapCalls emptyRegistry uris) 0 = none) :=
  urid_wf_spec (runMapCalls emptyRegistry uris) (runMapCalls_wf uris) s t idx

/-- Witness for C7 at a concrete call history. -/
theorem urid_registry_spec_witness :
    (¬("urn:a" : String) = "urn:b") ∧
    ((map_uri (runMapCalls emptyRegistry ["urn:a", "urn:b"]) "urn:a").2 ≠ 0) ∧
    (unmap_uri (map_uri (runMapCalls emptyRegistry ["urn:a", "urn:b"]) "urn:a").1
      (map_uri (runMapCalls emptyRegistry ["urn:a", "urn:b"]) "urn:a").2 = some "urn:a") ∧
    ((map_uri (map_uri (runMapCalls emptyRegistry ["urn:a", "urn:b"]) "urn:a").1 "urn:b").2 ≠
      (map_uri (runMapCalls emptyRegistry ["urn:a", "urn:b"]) "urn:a").2) ∧
    ((runMapCalls emptyRegistry ["urn:a", "urn:b"]).urid_map.length < 5 →
      unmap_uri (runMapCalls emptyRegistry ["urn:a", "urn:b"]) 5 = none) := by
  have h := urid_registry_spec ["urn:a", "urn:b"] "urn:a" "urn:b" 5
  refine ⟨by decide, h.1, h.2.2.2.1, h.2.2.1 (by decide), h.2.2.2.2.2.1⟩

/-- `std::clamp(v, lo, hi)`: `lo` when `v < lo`, `hi` when `hi < v`, else
`v`.  Control values are only ever compared, never combined, so `ℚ` models
the 32-bit floats faithfully here. -/
def std_clamp (v lo hi : ℚ) : ℚ :=
  if v < lo then lo else if hi < v then hi else v

/-- The `std::variant<float, bool, std::vector<uint8_t>>` accepted by
`PluginControl::setValue`. -/
inductive ControlValue where
  | float (v : ℚ)
  | boolean (b : Bool)
  | bytes (data : List Nat)
deriving DecidableEq

/-- State of a `ControlPortFloat`: symbol and the four float fields. -/
structure ControlPortFloat where
  symbol_ : String
  value_ : ℚ
  defvalue_ : ℚ
  minval_ : ℚ
  maxval_ : ℚ
deriving DecidableEq

/-- `ControlPortFloat::setValue`: clamp a float into `value_`; a
`bad_variant_access` (any non-float payload) is caught and ignored. -/
def ControlPortFloat.setValue (c : ControlPortFloat) (val : ControlValue) :
    ControlPortFloat :=
  match val with
  | .float fval => { c with value_ := std_clamp fval c.minval_ c.maxval_ }
  | _ => c

/-- `ControlPortFloat::getValue`. -/
def ControlPortFloat.getValue (c : ControlPortFloat) : ControlValue :=
  .float c.value_

/-- `AtomState`: the pending UI→DSP slot and the DSP→UI ring. -/
structure AtomState where
  ui_to_dsp : List Nat
  ui_to_dsp_type : Nat
  ui_to_dsp_pending : Bool
  dsp_to_ui : Ringbuffer

/-- The controls the factory `PluginControl::create` actually builds: a
`ControlPortFloat` for control-class ports and an `AtomPortControl` for
atom-class ports (toggle/trigger detection is an unimplemented TODO). -/
inductive PluginCtrl where
  | controlFloat (c : ControlPortFloat)
  | atomPort (symbol : String) (a : AtomState)

/-- `PluginControl::getSymbol`. -/
def PluginCtrl.getSymbol : PluginCtrl → String
  | .controlFloat c => c.symbol_
  | .atomPort s _ => s

/-- `PluginControl::setValue`, dispatched over the concrete subclass. -/
def PluginCtrl.setValue : PluginCtrl → ControlValue → PluginCtrl
  | .controlFloat c, v => .controlFloat (c.setValue v)
  | .atomPort s a, .bytes d =>
    .atomPort s { a with ui_to_dsp := d, ui_to_dsp_pending := true }
  | .atomPort s a, _ => .atomPort s a

/-- An atom sequence header plus its events, as kept in a port's atom
buffer. -/
structure AtomSeq where
  atype : Nat
  asize : Nat
  events : List AtomEvent

/-- `LV2Plugin::Port`. -/
structure Port where
  index : Nat
  is_audio : Bool
  is_input : Bool
  is_control : Bool
  is_atom : Bool
  is_midi : Bool
  control : ℚ
  defvalue : ℚ
  atom : Option AtomSeq
  atom_buf_size : Nat
  atom_state : Option AtomState

/-- The per-instance state `process()` and the control surface touch: the
port table and the `PluginControl` list. -/
structure LV2PluginState where
  ports_ : List Port
  controls_ : List PluginCtrl

/-- `LV2Plugin::getControl`: first control whose symbol matches. -/
def LV2Plugin.getControl (st : LV2PluginState) (symbol : String) : Option PluginCtrl :=
  st.controls_.find? (fun c => c.getSymbol == symbol)

/-- Replace the first element satisfying the test (the in-place mutation of
the object `getControl` returned). -/
def updateFirst (l : List PluginCtrl) (p : PluginCtrl → Bool)
    (f : PluginCtrl → PluginCtrl) : List PluginCtrl :=
  match l with
  | [] => []
  | a :: t => if p a then f a :: t else a :: updateFirst t p f

/-- The UI-thread call `getControl(symbol)->setValue(v)`: mutates the first
matching control object; the port table is not touched. -/
def LV2Plugin.setControlValue (st : LV2PluginState) (symbol : String)
    (v : ControlValue) : LV2PluginState :=
  { st with controls_ :=
      updateFirst st.controls_ (fun c => c.getSymbol == symbol) (fun c => c.setValue v) }

/-- What `lilv_instance_connect_port` binds a port index to. -/
inductive ConnTarget where
  | portControl (i : Nat)
  | portAtom (i : Nat)
deriving DecidableEq

/-- The connection loop at the end of `LV2Plugin::init_instance`: every
non-audio port is connected to its permanent backing store — control ports
to `&p.control`, atom ports to `p.atom`. -/
def init_instance_connect : List Port → List (Nat × ConnTarget)
  | [] => []
  | p :: rest =>
    if p.is_audio then init_instance_connect rest
    else
      ((if p.is_control then [(p.index, ConnTarget.portControl p.index)] else []) ++
        (if p.is_atom then [(p.index, ConnTarget.portAtom p.index)] else [])) ++
      init_instance_connect rest

/-- The scalar the plugin reads during `process()` for a port connected to
`&ports_[i].control`. -/
def observedControl (st : LV2PluginState) (i : Nat) : Option ℚ :=
  (st.ports_[i]?).map (fun p => p.control)

theorem mem_init_instance_connect {ports : List Port} {p : Port} (hp : p ∈ ports)
    (hc : p.is_control = true) (ha : p.is_audio = false) :
    (p.index, ConnTarget.portControl p.index) ∈ init_instance_connect ports := by
  induction ports with
  | nil => exact absurd hp (List.not_mem_nil _)
  | cons q rest ih =>
    rcases List.mem_cons.mp hp with h1 | h1
    · subst h1
      show (p.index, ConnTarget.portControl p.index) ∈
        (if p.is_audio then init_instance_connect rest else _)
      rw [if_neg (by simp [ha])]
      apply List.mem_append_left
      apply List.mem_append_left
      rw [if_pos hc]
      exact List.mem_singleton.mpr rfl
    · show (p.index, ConnTarget.portControl p.index) ∈
        (if q.is_audio then init_instance_connect rest else _)
      by_cases hq : q.is_audio = true
      · rw [if_pos hq]
        exact ih h1
      · rw [if_neg hq]
        exact List.mem_append_right _ (ih h1)

/-- Claim C2: the scalar connected for a control port is `Port::control`;
setting a value through `getControl(symbol)->setValue(v)` rewrites only the
control object, leaves the port table untouched, and therefore never changes
any scalar the plugin observes during `process()`. -/
theorem setControlValue_not_observed (st : LV2PluginState) (symbol : String)
    (v : ControlValue) (p : Port) (hp : p ∈ st.ports_) (hc : p.is_control = true)
    (ha : p.is_audio = false) :
    (p.index, ConnTarget.portControl p.index) ∈ init_instance_connect st.ports_ ∧
    (LV2Plugin.setControlValue st symbol v).ports_ = st.ports_ ∧
    (∀ i, observedControl (LV2Plugin.setControlValue st symbol v) i =
      observedControl st i) := by
  refine ⟨mem_init_instance_connect hp hc ha, rfl, fun i => rfl⟩

/-- A concrete float control: symbol GAIN, range [0, 1], default 0. -/
def gainCtrl : ControlPortFloat :=
  { symbol_ := "GAIN", value_ := 0, defvalue_ := 0, minval_ := 0, maxval_ := 1 }

/-- The corresponding port table entry. -/
def gainPort : Port :=
  { index := 0, is_audio := false, is_input := true, is_control := true,
    is_atom := false, is_midi := false, control := 0, defvalue := 0,
    atom := none, atom_buf_size := 8192, atom_state := none }

/-- A one-port plugin instance for witnesses. -/
def plugin0 : LV2PluginState :=
  { ports_ := [gainPort], controls_ := [.controlFloat gainCtrl] }

/-- Witness for C2 on the one-port plugin. -/
theorem setControlValue_not_observed_witness :
    (gainPort.index, ConnTarget.portControl gainPort.index) ∈
      init_instance_connect plugin0.ports_ ∧
    (LV2Plugin.setControlValue plugin0 "GAIN" (ControlValue.float 2)).ports_ =
      plugin0.ports_ ∧
    (∀ i, observedControl (LV2Plugin.setControlValue plugin0 "GAIN" (ControlValue.float 2)) i =
      observedControl plugin0 i) :=
  setControlValue_not_observed plugin0 "GAIN" (ControlValue.float 2) gainPort
    (List.mem_singleton.mpr rfl) rfl rfl

/-- Failures of the JNI `setValue` entry: member access through a null
plugin pointer, or `std::vector::at` throwing for a bad index. -/
inductive JniError where
  | nullPlugin
  | indexOutOfRange
deriving DecidableEq

/-- The engine-side plugin slots reached from `jni_bridge.cpp`
(`engine->plugin1 … plugin4`). -/
structure AudioEngine where
  plugin1 : Option LV2PluginState
  plugin2 : Option LV2PluginState
  plugin3 : Option LV2PluginState
  plugin4 : Option LV2PluginState

/-- The `switch (p)` of the JNI entries: `some slot` for 1…4, `none` for
the logged-and-ignored default case. -/
def AudioEngine.getSlot (e : AudioEngine) : Nat → Option (Option LV2PluginState)
  | 1 => some e.plugin1
  | 2 => some e.plugin2
  | 3 => some e.plugin3
  | 4 => some e.plugin4
  | _ => none

def AudioEngine.putSlot (e : AudioEngine) (p : Nat) (pl : Option LV2PluginState) :
    AudioEngine :=
  match p with
  | 1 => { e with plugin1 := pl }
  | 2 => { e with plugin2 := pl }
  | 3 => { e with plugin3 := pl }
  | 4 => { e with plugin4 := pl }
  | _ => e

/-- The store `ports_.at(index).control = value`: the indexed port's
backing scalar receives the raw value; every other field and port is
unchanged. -/
def writePortValue (pl : LV2PluginState) (index : Nat) (h : index < pl.ports_.length)
    (value : ℚ) : LV2PluginState :=
  { pl with
    ports_ := pl.ports_.set index { pl.ports_.get ⟨index, h⟩ with control := value } }

/-- `Java_org_acoustixaudio_opiqo_multi_AudioEngine_setValue`: pick the slot
(1…4, else log and return unchanged), then run
`plugin->ports_.at(index).control = value` — a raw, unclamped store into the
port's backing scalar. -/
def AudioEngine.setValue (e : AudioEngine) (p : Nat) (index : Nat) (value : ℚ) :
    Except JniError AudioEngine :=
  match e.getSlot p with
  | none => .ok e
  | some none => .error .nullPlugin
  | some (some pl) =>
    if h : index < pl.ports_.length then
      .ok (e.putSlot p (some (writePortValue pl index h value)))
    else
      .error .indexOutOfRange

/-- An engine holding the one-port plugin in slot 1. -/
def engine0 : AudioEngine :=
  { plugin1 := some plugin0, plugin2 := none, plugin3 := none, plugin4 := none }

/-- The backing scalar of port 0 of slot 1 after `setValue(1, 0, 2)`. -/
def controlAfterSetValue : Option ℚ :=
  match AudioEngine.setValue engine0 1 0 2 with
  | .ok e =>
    match e.plugin1 with
    | some pl => (pl.ports_[0]?).map (fun q => q.control)
    | none => none
  | .error _ => none

/-- Counterexample to claim C1: the control surface sets 2 on the GAIN port
whose range is [0, 1]; the backing scalar reads back 2, not
`clamp(2, 0, 1) = 1`, because the JNI `setValue` stores the raw value. -/
theorem setValue_no_clamp_counterexample :
    controlAfterSetValue = some 2 ∧
    std_clamp 2 gainCtrl.minval_ gainCtrl.maxval_ = 1 ∧
    (2 : ℚ) ≠ 1 := by
  refine ⟨rfl, ?_, by norm_num⟩
  show std_clamp 2 0 1 = 1
  norm_num [std_clamp]

/-- Claim C1 (amended): `ControlPortFloat::setValue` stores
`clamp(v, min, max)` into its private `value_` and ignores type-mismatched
values, but the engine's `setValue(slot, index, value)` JNI entry stores the
raw value, unclamped, straight into `ports_[index].control`. -/
theorem setValue_semantics (c : ControlPortFloat) (v : ℚ) (b : Bool) (d : List Nat)
    (e : AudioEngine) (pl : LV2PluginState) (index : Nat) (value : ℚ)
    (hpl : e.plugin1 = some pl) (hidx : index < pl.ports_.length) :
    ((c.setValue (ControlValue.float v)).value_ = std_clamp v c.minval_ c.maxval_) ∧
    (c.setValue (ControlValue.boolean b) = c) ∧
    (c.setValue (ControlValue.bytes d) = c) ∧
    (AudioEngine.setValue e 1 index value =
      .ok (e.putSlot 1 (some (writePortValue pl index hidx value)))) := by
  refine ⟨rfl, rfl, rfl, ?_⟩
  have h1 : e.getSlot 1 = some (some pl) := by
    rw [show e.getSlot 1 = some e.plugin1 from rfl, hpl]
  simp only [AudioEngine.setValue, h1]
  rw [dif_pos hidx]

/-- Witness for C1 (amended) on the concrete engine. -/
theorem setValue_semantics_witness :
    ((gainCtrl.setValue (ControlValue.float 2)).value_ =
      std_clamp 2 gainCtrl.minval_ gainCtrl.maxval_) ∧
    (gainCtrl.setValue (ControlValue.boolean true) = gainCtrl) ∧
    (gainCtrl.setValue (ControlValue.bytes [1]) = gainCtrl) ∧
    (AudioEngine.setValue engine0 1 0 2 =
      .ok (engine0.putSlot 1 (some (writePortValue plugin0 0 (by decide) 2)))) :=
  setValue_semantics gainCtrl 2 true [1] engine0 plugin0 0 2 rfl (by decide)

/-- The lilv-side description of one plugin port, as read in
`check_resize_port_requirements` and `init_ports`: the port classes, the
optional `resize-port:minimumSize` value and the optional default. -/
structure PortDesc where
  is_audio : Bool
  is_control : Bool
  is_atom : Bool
  is_input : Bool
  is_midi : Bool
  minimumSize : Option Nat
  deflt : Option ℚ

/-- `LV2Plugin::check_resize_port_requirements`: fold over all ports,
raising the accumulated size to each atom port's declared minimum (ports
with no declared minimum are skipped).  The accumulator starts from the
constructor value `required_atom_size_ = 8192`. -/
def check_resize_port_requirements (descs : List PortDesc)
    (required_atom_size : Nat) : Nat :=
  descs.foldl (fun acc d =>
    if d.is_atom then
      match d.minimumSize with
      | some required => max acc required
      | none => acc
    else acc) required_atom_size

/-- One entry built by the `init_ports` loop: index `i`, the classes from
lilv, `atom_buf_size = required_atom_size_` for atom ports, the default as
initial control value for control inputs. -/
def mkPort (seqUrid required : Nat) (i : Nat) (d : PortDesc) : Port :=
  { index := i, is_audio := d.is_audio, is_input := d.is_input,
    is_control := d.is_control, is_atom := d.is_atom, is_midi := d.is_midi,
    control := if d.is_control && d.is_input then d.deflt.getD 0 else 0,
    defvalue := if d.is_control && d.is_input then d.deflt.getD 0 else 0,
    atom := if d.is_atom then
        some { atype := seqUrid, asize := if d.is_input then 8 else 0, events := [] }
      else none,
    atom_buf_size := if d.is_atom then required else 8192,
    atom_state := if d.is_atom then
        some { ui_to_dsp := [], ui_to_dsp_type := 0, ui_to_dsp_pending := false,
               dsp_to_ui := ringbuffer16384 }
      else none }

/-- `LV2Plugin::init_ports`. -/
def init_ports (descs : List PortDesc) (seqUrid required_atom_size : Nat) :
    List Port :=
  descs.enum.map (fun pr => mkPort seqUrid required_atom_size pr.1 pr.2)

/-- The port table after `initialize()` has run
`check_resize_port_requirements` followed by `init_ports`. -/
def initPortTable (descs : List PortDesc) (seqUrid : Nat) : List Port :=
  init_ports descs seqUrid (check_resize_port_requirements descs 8192)

/-- The declared minimum sizes of the atom ports, in port order (modelled
from the spec's wording for comparison with the code). -/
def atomMinSizes (descs : List PortDesc) : List Nat :=
  descs.filterMap (fun d => if d.is_atom then d.minimumSize else none)

theorem foldr_max_init (l : List Nat) (a b : Nat) :
    l.foldr max (max a b) = max b (l.foldr max a) := by
  induction l with
  | nil => exact max_comm a b
  | cons c t ih =>
    simp only [List.foldr_cons, ih]
    exact max_left_comm c b (t.foldr max a)

theorem check_resize_eq_foldr (descs : List PortDesc) (init : Nat) :
    check_resize_port_requirements descs init = (atomMinSizes descs).foldr max init := by
  induction descs generalizing init with
  | nil => rfl
  | cons d t ih =>
    by_cases hd : d.is_atom = true
    · cases hm : d.minimumSize with
      | some m =>
        have hstep : check_resize_port_requirements (d :: t) init =
            check_resize_port_requirements t (max init m) := by
          simp only [check_resize_port_requirements, List.foldl_cons, hd, hm, if_true]
        have hmins : atomMinSizes (d :: t) = m :: atomMinSizes t := by
          simp only [atomMinSizes, List.filterMap_cons, hd, hm, if_true]
        rw [hstep, hmins, List.foldr_cons, ih (max init m), foldr_max_init]
      | none =>
        have hstep : check_resize_port_requirements (d :: t) init =
            check_resize_port_requirements t init := by
          simp only [check_resize_port_requirements, List.foldl_cons, hd, hm, if_true]
        have hmins : atomMinSizes (d :: t) = atomMinSizes t := by
          simp only [atomMinSizes, List.filterMap_cons, hd, hm, if_true]
        rw [hstep, hmins, ih init]
    · have hstep : check_resize_port_requirements (d :: t) init =
          check_resize_port_requirements t init := by
        simp only [check_resize_port_requirements, List.foldl_cons, hd, if_false]
        rw [if_neg (by simp [hd])]
      have hmins : atomMinSizes (d :: t) = atomMinSizes t := by
        simp only [atomMinSizes, List.filterMap_cons]
        rw [if_neg (by simp [hd])]
      rw [hstep, hmins, ih init]

/-- Claim C10: after initialization every atom port's buffer size is the
maximum of 8192 and the declared minimum sizes of all the plugin's atom
ports; undeclared minima contribute nothing. -/
theorem atom_buf_size_spec (descs : List PortDesc) (seqUrid : Nat) (p : Port)
    (hp : p ∈ initPortTable descs seqUrid) (hatom : p.is_atom = true) :
    p.atom_buf_size = (atomMinSizes descs).foldr max 8192 := by
  simp only [initPortTable, init_ports] at hp
  obtain ⟨pr, hpr, rfl⟩ := List.mem_map.mp hp
  have h2 : pr.2.is_atom = true := hatom
  show (if pr.2.is_atom = true then check_resize_port_requirements descs 8192 else 8192) = _
  rw [if_pos h2, check_resize_eq_foldr]

/-- A two-port description: one audio port and one atom port asking for a
32768-byte buffer. -/
def descAudio : PortDesc :=
  { is_audio := true, is_control := false, is_atom := false, is_input := true,
    is_midi := false, minimumSize := none, deflt := none }

def descAtom : PortDesc :=
  { is_audio := false, is_control := false, is_atom := true, is_input := true,
    is_midi := false, minimumSize := some 32768, deflt := none }

/-- Witness for C10: the atom port of the concrete table gets a 32768-byte
buffer. -/
theorem atom_buf_size_spec_witness :
    (mkPort 1 (check_resize_port_requirements [descAudio, descAtom] 8192) 1 descAtom).atom_buf_size =
      (atomMinSizes [descAudio, descAtom]).foldr max 8192 :=
  atom_buf_size_spec [descAudio, descAtom] 1
    (mkPort 1 (check_resize_port_requirements [descAudio, descAtom] 8192) 1 descAtom)
    (by simp [initPortTable, init_ports, List.enum]) rfl

/-- Lifecycle of a heap-allocated `LV2Plugin` object. -/
inductive InstStatus where
  | alive
  | closedFreed
deriving DecidableEq

/-- The engine slots as raw pointers plus an allocation map: `pluginN` holds
a pointer (or null), `heap` records whether each allocated object has been
closed and freed, `next` is the next fresh address. -/
structure EngineMem where
  plugin1 : Option Nat
  plugin2 : Option Nat
  plugin3 : Option Nat
  plugin4 : Option Nat
  heap : Nat → InstStatus
  next : Nat

def EngineMem.slot (e : EngineMem) : Nat → Option Nat
  | 1 => e.plugin1
  | 2 => e.plugin2
  | 3 => e.plugin3
  | 4 => e.plugin4
  | _ => none

def EngineMem.setSlot (e : EngineMem) (p : Nat) (v : Option Nat) : EngineMem :=
  match p with
  | 1 => { e with plugin1 := v }
  | 2 => { e with plugin2 := v }
  | 3 => { e with plugin3 := v }
  | 4 => { e with plugin4 := v }
  | _ => e

/-- Outcome of a JNI call that may dereference a null pointer. -/
inductive DeleteOutcome where
  | ok
  | nullDeref
deriving DecidableEq

/-- `Java_..._deletePlugin`, transliterated: for an occupied slot the code
first stores null into the slot (`engine->pluginN = nullptr;`) and then
calls `closePlugin()` and `free()` through that same, freshly nulled slot
pointer (`engine->pluginN->closePlugin(); free(engine->pluginN);`). -/
def deletePlugin (e : EngineMem) (p : Nat) : EngineMem × DeleteOutcome :=
  match p with
  | 1 =>
    match e.plugin1 with
    | some _ =>
      let e1 := { e with plugin1 := none }
      match e1.plugin1 with
      | some ptr => ({ e1 with heap := Function.update e1.heap ptr .closedFreed }, .ok)
      | none => (e1, .nullDeref)
    | none => (e, .ok)
  | 2 =>
    match e.plugin2 with
    | some _ =>
      let e1 := { e with plugin2 := none }
      match e1.plugin2 with
      | some ptr => ({ e1 with heap := Function.update e1.heap ptr .closedFreed }, .ok)
      | none => (e1, .nullDeref)
    | none => (e, .ok)
  | 3 =>
    match e.plugin3 with
    | some _ =>
      let e1 := { e with plugin3 := none }
      match e1.plugin3 with
      | some ptr => ({ e1 with heap := Function.update e1.heap ptr .closedFreed }, .ok)
      | none => (e1, .nullDeref)
    | none => (e, .ok)
  | 4 =>
    match e.plugin4 with
    | some _ =>
      let e1 := { e with plugin4 := none }
      match e1.plugin4 with
      | some ptr => ({ e1 with heap := Function.update e1.heap ptr .closedFreed }, .ok)
      | none => (e1, .nullDeref)
    | none => (e, .ok)
  | _ => (e, .ok)

/-- An engine whose slot 1 holds a live instance at address 7. -/
def engineMem0 : EngineMem :=
  { plugin1 := some 7, plugin2 := none, plugin3 := none, plugin4 := none,
    heap := fun _ => InstStatus.alive, next := 8 }

/-- Claim C3 evaluated at the failing input: `deletePlugin(1)` on a slot
holding instance 7 empties the slot but dereferences the just-nulled slot
pointer; the removed instance is never closed or freed. -/
theorem deletePlugin_null_deref :
    (deletePlugin engineMem0 1).2 = DeleteOutcome.nullDeref ∧
    (deletePlugin engineMem0 1).1.plugin1 = none ∧
    (deletePlugin engineMem0 1).1.heap 7 = InstStatus.alive := by
  refine ⟨rfl, rfl, rfl⟩

/-- `Java_..._addPlugin`: swap the old pointer out of the slot, close and
free it, allocate and initialize the new plugin; `-1` on an unknown slot or
a failed `initialize()` (the slot then stays empty), else install and return
0. -/
def addPlugin (initOk : String → Bool) (e : EngineMem) (position : Nat)
    (uri : String) : EngineMem × Int :=
  match position with
  | 1 | 2 | 3 | 4 =>
    let old := e.slot position
    let e1 := e.setSlot position none
    let e2 := match old with
      | some ptr => { e1 with heap := Function.update e1.heap ptr .closedFreed }
      | none => e1
    let ptr := e2.next
    let e3 := { e2 with next := e2.next + 1, heap := Function.update e2.heap ptr .alive }
    if initOk uri then (e3.setSlot position (some ptr), 0)
    else (e3, -1)
  | _ => (e, -1)

/-- Counterexample to claim C4: adding an unknown URI to slot 1 (which held
instance 7) returns −1, yet the slot is left empty — not holding the
instance it held before — and that instance has been closed and freed. -/
theorem addPlugin_not_intact_counterexample :
    (addPlugin (fun _ => false) engineMem0 1 "urn:x").2 = -1 ∧
    engineMem0.plugin1 = some 7 ∧
    (addPlugin (fun _ => false) engineMem0 1 "urn:x").1.plugin1 = none ∧
    (addPlugin (fun _ => false) engineMem0 1 "urn:x").1.heap 7 = InstStatus.closedFreed := by
  refine ⟨rfl, rfl, rfl, rfl⟩

/-- The body the four occupied-slot cases of `addPlugin` share (the
`switch` dispatches slots 1…4 here; other values return −1 untouched). -/
def addPluginUnchecked (initOk : String → Bool) (e : EngineMem) (position : Nat)
    (uri : String) : EngineMem × Int :=
  let old := e.slot position
  let e1 := e.setSlot position none
  let e2 := match old with
    | some ptr => { e1 with heap := Function.update e1.heap ptr .closedFreed }
    | none => e1
  let ptr := e2.next
  let e3 := { e2 with next := e2.next + 1, heap := Function.update e2.heap ptr .alive }
  if initOk uri then (e3.setSlot position (some ptr), 0)
  else (e3, -1)

theorem addPlugin_eq_unchecked (initOk : String → Bool) (e : EngineMem) (uri : String)
    (pos : Nat) (h : pos = 1 ∨ pos = 2 ∨ pos = 3 ∨ pos = 4) :
    addPlugin initOk e pos uri = addPluginUnchecked initOk e pos uri := by
  rcases h with rfl | rfl | rfl | rfl <;> rfl

theorem slot_mk_heap_next (e : EngineMem) (hp : Nat → InstStatus) (nx : Nat) (pos : Nat) :
    ({ e with heap := hp, next := nx } : EngineMem).slot pos = e.slot pos := by
  rcases pos with _ | _ | _ | _ | _ | k <;> rfl

theorem slot_mk_heap (e : EngineMem) (hp : Nat → InstStatus) (pos : Nat) :
    ({ e with heap := hp } : EngineMem).slot pos = e.slot pos := by
  rcases pos with _ | _ | _ | _ | _ | k <;> rfl

theorem setSlot_heap (e : EngineMem) (pos : Nat) (v : Option Nat) :
    (e.setSlot pos v).heap = e.heap := by
  rcases pos with _ | _ | _ | _ | _ | k <;> rfl

theorem setSlot_next (e : EngineMem) (pos : Nat) (v : Option Nat) :
    (e.setSlot pos v).next = e.next := by
  rcases pos with _ | _ | _ | _ | _ | k <;> rfl

theorem slot_setSlot_self (e : EngineMem) (pos : Nat) (v : Option Nat)
    (h : pos = 1 ∨ pos = 2 ∨ pos = 3 ∨ pos = 4) : (e.setSlot pos v).slot pos = v := by
  rcases h with rfl | rfl | rfl | rfl <;> rfl

theorem addPluginUnchecked_spec (initOk : String → Bool) (e : EngineMem) (pos : Nat)
    (uri : String) (h : pos = 1 ∨ pos = 2 ∨ pos = 3 ∨ pos = 4) :
    ((addPluginUnchecked initOk e pos uri).2 = 0 ∨
      (addPluginUnchecked initOk e pos uri).2 = -1) ∧
    (initOk uri = false →
      (addPluginUnchecked initOk e pos uri).2 = -1 ∧
      (addPluginUnchecked initOk e pos uri).1.slot pos = none ∧
      (∀ q, e.slot pos = some q → q ≠ e.next →
        (addPluginUnchecked initOk e pos uri).1.heap q = InstStatus.closedFreed)) ∧
    (initOk uri = true →
      (addPluginUnchecked initOk e pos uri).2 = 0 ∧
      (addPluginUnchecked initOk e pos uri).1.slot pos = some e.next) := by
  cases hok : initOk uri with
  | false =>
    cases hold : e.slot pos with
    | none =>
      have hred : addPluginUnchecked initOk e pos uri =
          ({ e.setSlot pos none with
              next := (e.setSlot pos none).next + 1,
              heap := Function.update (e.setSlot pos none).heap
                (e.setSlot pos none).next InstStatus.alive }, -1) := by
        simp only [addPluginUnchecked, hold, hok]
        rw [if_neg (by simp)]
      refine ⟨Or.inr (by rw [hred]), fun _ => ⟨by rw [hred], ?_, ?_⟩,
        fun hc => absurd hc (by decide)⟩
      · rw [hred, slot_mk_heap_next, slot_setSlot_self e pos none h]
      · intro q hq
        exact absurd hq (by simp)
    | some q0 =>
      have hred : addPluginUnchecked initOk e pos uri =
          ({ { e.setSlot pos none with
                heap := Function.update (e.setSlot pos none).heap q0 InstStatus.closedFreed } with
              next := (e.setSlot pos none).next + 1,
              heap := Function.update
                (Function.update (e.setSlot pos none).heap q0 InstStatus.closedFreed)
                (e.setSlot pos none).next InstStatus.alive }, -1) := by
        simp only [addPluginUnchecked, hold, hok]
        rw [if_neg (by simp)]
      refine ⟨Or.inr (by rw [hred]), fun _ => ⟨by rw [hred], ?_, ?_⟩,
        fun hc => absurd hc (by decide)⟩
      · rw [hred, slot_mk_heap_next, slot_mk_heap, slot_setSlot_self e pos none h]
      · intro q hq hqn
        obtain rfl := Option.some_inj.mp hq.symm
        rw [hred]
        show Function.update
            (Function.update (e.setSlot pos none).heap q InstStatus.closedFreed)
            (e.setSlot pos none).next InstStatus.alive q = InstStatus.closedFreed
        rw [setSlot_next]
        rw [Function.update_noteq hqn, Function.update_same]
  | true =>
    cases hold : e.slot pos with
    | none =>
      have hred : addPluginUnchecked initOk e pos uri =
          (({ e.setSlot pos none with
              next := (e.setSlot pos none).next + 1,
              heap := Function.update (e.setSlot pos none).heap
                (e.setSlot pos none).next InstStatus.alive } : EngineMem).setSlot pos
            (some (e.setSlot pos none).next), 0) := by
        simp only [addPluginUnchecked, hold, hok]
        rw [if_pos (by simp)]
      refine ⟨Or.inl (by rw [hred]), fun hc => absurd hc (by decide),
        fun _ => ⟨by rw [hred], ?_⟩⟩
      rw [hred, slot_setSlot_self _ pos _ h, setSlot_next]
    | some q0 =>
      have hred : addPluginUnchecked initOk e pos uri =
          (({ { e.setSlot pos none with
                heap := Function.update (e.setSlot pos none).heap q0 InstStatus.closedFreed } with
              next := (e.setSlot pos none).next + 1,
              heap := Function.update
                (Function.update (e.setSlot pos none).heap q0 InstStatus.closedFreed)
                (e.setSlot pos none).next InstStatus.alive } : EngineMem).setSlot pos
            (some (e.setSlot pos none).next), 0) := by
        simp only [addPluginUnchecked, hold, hok]
        rw [if_pos (by simp)]
      refine ⟨Or.inl (by rw [hred]), fun hc => absurd hc (by decide),
        fun _ => ⟨by rw [hred], ?_⟩⟩
      rw [hred, slot_setSlot_self _ pos _ h, setSlot_next]

/-- Claim C4 (amended): `addPlugin` returns 0 on success and −1 on error;
an invalid slot number leaves the engine untouched; but on a failed
initialization (unknown URI or instantiation failure) the slot's previous
instance has already been closed and freed and the slot is left empty — the
chain is not kept intact. -/
theorem addPlugin_spec (initOk : String → Bool) (e : EngineMem) (pos : Nat)
    (uri : String) :
    ((addPlugin initOk e pos uri).2 = 0 ∨ (addPlugin initOk e pos uri).2 = -1) ∧
    (¬(pos = 1 ∨ pos = 2 ∨ pos = 3 ∨ pos = 4) → addPlugin initOk e pos uri = (e, -1)) ∧
    ((pos = 1 ∨ pos = 2 ∨ pos = 3 ∨ pos = 4) →
      (initOk uri = false →
        (addPlugin initOk e pos uri).2 = -1 ∧
        (addPlugin initOk e pos uri).1.slot pos = none ∧
        (∀ q, e.slot pos = some q → q ≠ e.next →
          (addPlugin initOk e pos uri).1.heap q = InstStatus.closedFreed)) ∧
      (initOk uri = true →
        (addPlugin initOk e pos uri).2 = 0 ∧
        (addPlugin initOk e pos uri).1.slot pos = some e.next)) := by
  by_cases hpos : pos = 1 ∨ pos = 2 ∨ pos = 3 ∨ pos = 4
  · rw [addPlugin_eq_unchecked initOk e uri pos hpos]
    have hs := addPluginUnchecked_spec initOk e pos uri hpos
    exact ⟨hs.1, fun habs => absurd hpos habs, fun _ => ⟨hs.2.1, hs.2.2⟩⟩
  · have hdef : addPlugin initOk e pos uri = (e, -1) := by
      rcases pos with _ | _ | _ | _ | _ | k
      · rfl
      · exact absurd (Or.inl rfl) hpos
      · exact absurd (Or.inr (Or.inl rfl)) hpos
      · exact absurd (Or.inr (Or.inr (Or.inl rfl))) hpos
      · exact absurd (Or.inr (Or.inr (Or.inr rfl))) hpos
      · rfl
    exact ⟨Or.inr (by rw [hdef]), fun _ => hdef, fun hc => absurd hc hpos⟩

/-- Witness for C4 (amended): a failed add on slot 1 of the concrete
engine. -/
theorem addPlugin_spec_witness :
    (addPlugin (fun _ => false) engineMem0 1 "urn:x").2 = -1 ∧
    (addPlugin (fun _ => false) engineMem0 1 "urn:x").1.slot 1 = none ∧
    (∀ q, engineMem0.slot 1 = some q → q ≠ engineMem0.next →
      (addPlugin (fun _ => false) engineMem0 1 "urn:x").1.heap q = InstStatus.closedFreed) :=
  ((addPlugin_spec (fun _ => false) engineMem0 1 "urn:x").2.2 (Or.inl rfl)).1 rfl
